import Mathlib

/-!
A verification development for the SweetPad standalone CLI core
(selection memory, smart pickers, command assembly, configuration loading).

The TypeScript sources are shallowly embedded as Lean definitions:

* `src/cli/state.ts`      → `loadState`, `saveState`, `getRememberedValue`,
  `setRememberedValue`, `removeRememberedValue`
* `src/cli/context.ts`    → `CliCtx`, `ctxCreate`, `savePersistentState`, ...
* `src/cli/config.ts`     → `envKeyForConfigKey`, `parseEnvValue`,
  `extractSweetpadConfig`, `loadCliConfig`; and the smart pickers
  `pickSchemeSmart`, `pickConfigurationSmart`, `pickXcodeWorkspacePathSmart`,
  `pickDestinationSmart`
* `src/build/runner.ts`   → `XcodeBuilder` (class `XcodeCommandBuilder`),
  `scanArgs`/`addAdditionalArgs`, `buildCommand`, `buildAppBuilder`
* CLI entry (`src/cli/index.ts`) → `resolveScheme`, `resolveConfiguration`,
  `resolveXcworkspace`, `resolveDestination`

External collaborators that are not part of this repository (node:fs,
JSON.parse/JSON.stringify, the fzf picker subprocess, destination
enumeration) are modelled abstractly: the persisted JSON document is
represented by the map it denotes, interactive pickers are oracle
functions passed as parameters, and enumerated destination lists are
inputs.
-/

/-- JavaScript string helpers, modelled on the character list so that
every definition evaluates inside the kernel (the corresponding String
builtins hide behind non-reducing loops). -/
def strStartsWith (s pre : String) : Bool :=
  pre.data.isPrefixOf s.data

/-- `s.includes(c)` for a single-character needle. -/
def strContainsChar (s : String) (c : Char) : Bool :=
  s.data.contains c

def splitOnCharAux (c : Char) : List Char → List Char → List (List Char)
  | [], acc => [acc.reverse]
  | x :: xs, acc =>
    if x = c then acc.reverse :: splitOnCharAux c xs []
    else splitOnCharAux c xs (x :: acc)

/-- `s.split(c)` for a single-character separator (splits on every
occurrence, exactly like the JavaScript `String.prototype.split`). -/
def strSplitOnChar (s : String) (c : Char) : List String :=
  (splitOnCharAux c s.data []).map String.mk

/-- `s.toUpperCase()` (ASCII, which covers every configuration key). -/
def strToUpper (s : String) : String :=
  String.mk (s.data.map Char.toUpper)

/-- `s.toLowerCase()` (ASCII). -/
def strToLower (s : String) : String :=
  String.mk (s.data.map Char.toLower)

/-- `s.trim()`. -/
def strTrim (s : String) : String :=
  String.mk (((s.data.dropWhile Char.isWhitespace).reverse.dropWhile
    Char.isWhitespace).reverse)

/-- Drop the first `n` characters of `s`. -/
def strDrop (s : String) (n : Nat) : String :=
  String.mk (s.data.drop n)

/-- JSON-compatible values stored in the persisted selection state and in
the configuration map (`Record<string, unknown>` restricted to the
JSON-compatible scalars and strings the spec allows). -/
inductive JsonValue where
  | str (s : String)
  | num (n : Int)
  | bool (b : Bool)
  | null
deriving DecidableEq, Repr

/-- `StateMap = Record<string, unknown>`: a JavaScript object modelled as
an insertion-ordered association list with unique keys maintained by
`setObjValue`. -/
abbrev StateMap := List (String × JsonValue)

/-- JavaScript object lookup `state[key]`. -/
def objLookup (m : StateMap) (k : String) : Option JsonValue :=
  (List.find? (fun p => p.1 == k) m).map (fun p => p.2)

/-- JavaScript object update `{ ...state, [key]: value }`: an existing key
keeps its position and gets the new value; a fresh key is appended. -/
def setObjValue (m : StateMap) (k : String) (v : JsonValue) : StateMap :=
  if List.any m (fun p => p.1 == k) then
    List.map (fun p => if p.1 == k then (k, v) else p) m
  else
    m ++ [(k, v)]

/-- Content of the on-disk state file `cli-state.json`.  node:fs and
JSON.stringify/JSON.parse are external to this repository; a document that
parses is represented by the `StateMap` it denotes (`jsonDoc`),
`malformed` stands for a document rejected by `JSON.parse`, and `ioErr`
for a read failure whose error code is not ENOENT. -/
inductive FileData where
  | missing
  | jsonDoc (m : StateMap)
  | malformed (raw : String)
  | ioErr
deriving DecidableEq, Repr

/-- Errors propagated out of `loadState`. -/
inductive LoadError where
  | parseError
  | readError
deriving DecidableEq, Repr

/-- `loadState` (src/cli/state.ts): read and JSON.parse the state file;
an ENOENT read error yields the empty map, every other error is
rethrown. -/
def loadState (fd : FileData) : Except LoadError StateMap :=
  match fd with
  | .missing => .ok []
  | .jsonDoc m => .ok m
  | .malformed _ => .error .parseError
  | .ioErr => .error .readError

/-- `saveState` (src/cli/state.ts): mkdir + write JSON.stringify(state),
overwriting whatever document was there. -/
def saveState (state : StateMap) : FileData :=
  .jsonDoc state

/-- `getRememberedValue` (src/cli/state.ts). -/
def getRememberedValue (state : StateMap) (key : String) : Option JsonValue :=
  objLookup state key

/-- `setRememberedValue` (src/cli/state.ts): returns the spread copy
`{ ...state, [key]: value }`. -/
def setRememberedValue (state : StateMap) (key : String) (value : JsonValue) : StateMap :=
  setObjValue state key value

/-- `removeRememberedValue` (src/cli/state.ts). -/
def removeRememberedValue (state : StateMap) (key : String) : StateMap :=
  List.filter (fun p => p.1 != key) state

/-- The mutable selection-memory part of `CliRuntimeContext`
(src/cli/context.ts): `persistentState` plus the `stateDirty` flag. -/
structure CliCtx where
  persistentState : StateMap
  stateDirty : Bool
deriving DecidableEq, Repr

/-- `CliRuntimeContext.create` (src/cli/context.ts): loads the persistent
state (propagating load failures) and starts with a clean dirty flag. -/
def ctxCreate (fd : FileData) : Except LoadError CliCtx :=
  match loadState fd with
  | .error e => .error e
  | .ok m => .ok ⟨m, false⟩

/-- `CliRuntimeContext.getRememberedValue`. -/
def ctxGetRememberedValue (ctx : CliCtx) (key : String) : Option JsonValue :=
  getRememberedValue ctx.persistentState key

/-- `CliRuntimeContext.setRememberedValue`: replaces the in-memory
snapshot and sets the dirty flag. -/
def ctxSetRememberedValue (ctx : CliCtx) (key : String) (value : JsonValue) : CliCtx :=
  ⟨setRememberedValue ctx.persistentState key value, true⟩

/-- `CliRuntimeContext.savePersistentState`: writes the state file only
when the dirty flag is set, then clears the flag.  Returns the new file
content together with the updated context. -/
def savePersistentState (fd : FileData) (ctx : CliCtx) : FileData × CliCtx :=
  if ctx.stateDirty then
    (saveState ctx.persistentState, ⟨ctx.persistentState, false⟩)
  else
    (fd, ctx)

/-- Apply a sequence of `setRememberedValue` calls to a context. -/
def ctxApplySets (ctx : CliCtx) (sets : List (String × JsonValue)) : CliCtx :=
  List.foldl (fun c p => ctxSetRememberedValue c p.1 p.2) ctx sets

lemma ctxApplySets_dirty (sets : List (String × JsonValue)) :
    ∀ ctx : CliCtx, sets ≠ [] → (ctxApplySets ctx sets).stateDirty = true := by
  induction sets with
  | nil => intro ctx h; exact absurd rfl h
  | cons p rest ih =>
    intro ctx _
    by_cases hrest : rest = []
    · subst hrest
      rfl
    · exact ih (ctxSetRememberedValue ctx p.1 p.2) hrest

/-- C6: for every state file content from which the runtime context can be
created, and every sequence of `set` operations with JSON-compatible keys
and values, performing the sets, then `savePersistentState`, then
`loadState` yields exactly the in-memory state map that existed after the
sets. -/
theorem set_save_load_roundtrip (fd : FileData) (ctx0 : CliCtx)
    (h : ctxCreate fd = .ok ctx0) (sets : List (String × JsonValue)) :
    loadState (savePersistentState fd (ctxApplySets ctx0 sets)).1 =
      .ok (ctxApplySets ctx0 sets).persistentState := by
  by_cases hsets : sets = []
  · subst hsets
    simp only [ctxApplySets, List.foldl_nil]
    cases fd with
    | missing =>
      obtain rfl : (⟨[], false⟩ : CliCtx) = ctx0 := Except.ok.inj h
      rfl
    | jsonDoc m =>
      obtain rfl : (⟨m, false⟩ : CliCtx) = ctx0 := Except.ok.inj h
      rfl
    | malformed raw => exact Except.noConfusion h
    | ioErr => exact Except.noConfusion h
  · have hdirty := ctxApplySets_dirty sets ctx0 hsets
    simp [savePersistentState, hdirty, saveState, loadState]

/-- Witness for C6 at a concrete input: create from a missing file, set
one key, save, reload. -/
theorem set_save_load_roundtrip_witness :
    ctxCreate .missing = .ok ⟨[], false⟩ ∧
      loadState (savePersistentState .missing
        (ctxApplySets ⟨[], false⟩ [("cli.scheme", .str "MyApp")])).1 =
        .ok (ctxApplySets ⟨[], false⟩ [("cli.scheme", .str "MyApp")]).persistentState :=
  ⟨rfl,
    set_save_load_roundtrip .missing ⟨[], false⟩ rfl
      [("cli.scheme", .str "MyApp")]⟩

/-- C7: `loadState` returns the empty map exactly when the state file is
absent (the ENOENT branch); a parse failure or any other read failure is
propagated as an error value, which is distinguishable from the empty-map
success. -/
theorem loadState_missing_empty_failures_propagate :
    loadState .missing = .ok [] ∧
      (∀ raw, loadState (.malformed raw) = .error .parseError) ∧
      loadState .ioErr = .error .readError ∧
      (∀ raw m, loadState (.malformed raw) ≠ .ok m) ∧
      (∀ m, loadState .ioErr ≠ .ok m) := by
  refine ⟨rfl, fun raw => rfl, rfl, fun raw m => ?_, fun m => ?_⟩ <;> simp [loadState]

/-- `envKeyForConfigKey` (src/cli/config.ts): fixed prefix, key
upper-cased, dots replaced with underscores. -/
def envKeyForConfigKey (key : String) : String :=
  "SWEETPAD_" ++ String.mk (key.data.map (fun ch => if ch = Char.ofNat 46 then Char.ofNat 95 else ch.toUpper))

/-- `parseEnvValue` (src/cli/config.ts).  `JSON.parse` is a Node builtin,
passed in as the collaborator `jsonParse` (returning `none` where
JSON.parse would throw, which the source catches by keeping the raw
string). -/
def parseEnvValue (jsonParse : String → Option JsonValue) (raw : String) : JsonValue :=
  let trimmed := strTrim raw
  if trimmed == "true" then .bool true
  else if trimmed == "false" then .bool false
  else if strStartsWith trimmed "\x7b" || strStartsWith trimmed "[" then
    match jsonParse trimmed with
    | some v => v
    | none => .str trimmed
  else .str trimmed

/-- `extractSweetpadConfig` (src/cli/config.ts): keep only the
`sweetpad.`-prefixed settings keys, stripping the prefix. -/
def extractSweetpadConfig (settings : List (String × JsonValue)) : List (String × JsonValue) :=
  settings.filterMap (fun p =>
    if strStartsWith p.1 "sweetpad." then some (strDrop p.1 9, p.2) else none)

/-- `Object.assign(config, extracted)` starting from `{}`: sequential
object updates (the source loop, written as structural recursion). -/
def objAssign : StateMap → List (String × JsonValue) → StateMap
  | m, [] => m
  | m, e :: rest => objAssign (setObjValue m e.1 e.2) rest

/-- The built-in known-key list of `loadCliConfig` (src/cli/config.ts). -/
def builtinConfigKeys : List String :=
  ["build.configuration", "build.arch", "build.args", "build.env",
   "build.launchArgs", "build.launchEnv", "build.rosettaDestination",
   "build.allowProvisioningUpdates", "build.xcbeautifyEnabled",
   "build.derivedDataPath", "build.xcodeWorkspacePath",
   "build.bringSimulatorToForeground", "xcodebuildserver.autogenerate",
   "xcodebuildserver.path", "system.customXcodeWorkspaceParser"]

/-- A JavaScript `Set` built by inserting the elements of `l` in order:
keeps the first occurrence of each element. -/
def jsSetOfList (l : List String) : List String :=
  go l []
where
  go : List String → List String → List String
    | [], _ => []
    | x :: xs, seen =>
      if seen.contains x then go xs seen else x :: go xs (x :: seen)

/-- The `knownKeys` set of `loadCliConfig`: the keys already present in
the settings-derived config followed by the built-in list. -/
def loadCliConfigKnownKeys (settingsConfig : StateMap) : List String :=
  jsSetOfList (settingsConfig.map (fun p => p.1) ++ builtinConfigKeys)

/-- The environment-override loop of `loadCliConfig` (the source
`for (const key of knownKeys)` loop, written as structural recursion). -/
def applyEnvOverrides (jsonParse : String → Option JsonValue)
    (env : String → Option String) : List String → StateMap → StateMap
  | [], cfg => cfg
  | k :: ks, cfg =>
    applyEnvOverrides jsonParse env ks
      (match env (envKeyForConfigKey k) with
       | some raw => setObjValue cfg k (parseEnvValue jsonParse raw)
       | none => cfg)

/-- `loadCliConfig` (src/cli/config.ts).  `settings` is the parsed
`.vscode/settings.json` object when the file exists (`none` when
absent); `env` is `process.env`. -/
def loadCliConfig (jsonParse : String → Option JsonValue)
    (settings : Option (List (String × JsonValue)))
    (env : String → Option String) : StateMap :=
  let config : StateMap :=
    match settings with
    | some s => objAssign [] (extractSweetpadConfig s)
    | none => []
  applyEnvOverrides jsonParse env (loadCliConfigKnownKeys config) config

lemma find?_cons_pos {α : Type} (p : α → Bool) (a : α) (l : List α) (h : p a = true) :
    List.find? p (a :: l) = some a := by
  rw [List.find?_cons, h]

lemma find?_cons_neg {α : Type} (p : α → Bool) (a : α) (l : List α) (h : p a = false) :
    List.find? p (a :: l) = List.find? p l := by
  rw [List.find?_cons, h]

lemma find?_map_upd (m : StateMap) (k k' : String) (v : JsonValue) :
    List.find? (fun p => p.1 == k')
        (m.map (fun p => if p.1 == k then (k, v) else p)) =
      if k' = k then
        (if m.any (fun p => p.1 == k) then some (k, v) else none)
      else List.find? (fun p => p.1 == k') m := by
  induction m with
  | nil => by_cases hk : k' = k <;> simp [hk]
  | cons p rest ih =>
    simp only [List.map_cons, List.any_cons]
    by_cases hp : (p.1 == k) = true
    · by_cases hk : k' = k
      · have hb : ((k, v).1 == k') = true := by simp [hk]
        rw [if_pos hp, find?_cons_pos (fun q => q.1 == k') (k, v) _ hb, if_pos hk]
        simp [hp]
      · have hpk : p.1 = k := by simpa using hp
        have hb1 : ((k, v).1 == k') = false := by
          simp only [beq_eq_false_iff_ne]
          exact fun he => hk he.symm
        have hb2 : (p.1 == k') = false := by
          simp only [beq_eq_false_iff_ne, hpk]
          exact fun he => hk he.symm
        rw [if_pos hp, find?_cons_neg (fun q => q.1 == k') (k, v) _ hb1, ih, if_neg hk,
          if_neg hk, find?_cons_neg (fun q => q.1 == k') p _ hb2]
    · by_cases ht : (p.1 == k') = true
      · have ht' : p.1 = k' := by simpa using ht
        have hpn : ¬ p.1 = k := by simpa using hp
        have hk : ¬ k' = k := fun he => hpn (by rw [← he]; exact ht')
        rw [if_neg hp, find?_cons_pos (fun q => q.1 == k') p _ ht,
          find?_cons_pos (fun q => q.1 == k') p _ ht, if_neg hk]
      · have htb : (p.1 == k') = false := by simpa using ht
        have hpb : (p.1 == k) = false := by simpa using hp
        rw [if_neg hp, find?_cons_neg (fun q => q.1 == k') p _ htb, ih,
          find?_cons_neg (fun q => q.1 == k') p _ htb]
        simp only [hpb, Bool.false_or]

/-- Characterization of the JavaScript spread-update: lookup at the
updated key sees the new value, lookup elsewhere is untouched. -/
lemma objLookup_setObjValue (m : StateMap) (k k' : String) (v : JsonValue) :
    objLookup (setObjValue m k v) k' =
      if k' = k then some v else objLookup m k' := by
  unfold setObjValue objLookup
  by_cases hm : (List.any m fun p => p.1 == k) = true
  · rw [if_pos hm, find?_map_upd, hm]
    by_cases hk : k' = k <;> simp [hk]
  · rw [if_neg hm, List.find?_append]
    by_cases hk : k' = k
    · subst hk
      have hnone : List.find? (fun p => p.1 == k') m = none := by
        rw [List.find?_eq_none]
        intro x hx hbeq
        exact hm (List.any_eq_true.2 ⟨x, hx, hbeq⟩)
      simp [hnone]
    · have hb : ((k, v).1 == k') = false := by
        simp only [beq_eq_false_iff_ne]
        exact fun he => hk he.symm
      rw [find?_cons_neg (fun q => q.1 == k') (k, v) _ hb, List.find?_nil, if_neg hk,
        Option.or_none]

lemma objLookup_objAssign_notmem (entries : List (String × JsonValue)) :
    ∀ (m : StateMap) (k : String), k ∉ entries.map (fun p => p.1) →
      objLookup (objAssign m entries) k = objLookup m k := by
  induction entries with
  | nil => intro m k _; rfl
  | cons e rest ih =>
    intro m k hk
    simp only [List.map_cons, List.mem_cons, not_or] at hk
    show objLookup (objAssign (setObjValue m e.1 e.2) rest) k = _
    rw [ih _ k hk.2, objLookup_setObjValue, if_neg hk.1]

lemma fst_setObjValue_map (m : StateMap) (k : String) (v : JsonValue) :
    (setObjValue m k v).map (fun p => p.1) =
      if m.any (fun p => p.1 == k) then m.map (fun p => p.1)
      else m.map (fun p => p.1) ++ [k] := by
  unfold setObjValue
  by_cases hm : (List.any m fun p => p.1 == k) = true
  · rw [if_pos hm, if_pos hm, List.map_map]
    congr 1
    funext p
    by_cases hp : (p.1 == k) = true
    · have hpk : p.1 = k := by simpa using hp
      simp [Function.comp, hp, hpk]
    · simp [Function.comp, hp]
  · rw [if_neg hm, if_neg hm, List.map_append]
    rfl

lemma mem_keys_setObjValue (m : StateMap) (k a : String) (v : JsonValue) :
    a ∈ (setObjValue m k v).map (fun p => p.1) ↔
      a ∈ m.map (fun p => p.1) ∨ a = k := by
  rw [fst_setObjValue_map]
  by_cases hm : (List.any m fun p => p.1 == k) = true
  · rw [if_pos hm]
    constructor
    · exact Or.inl
    · rintro (h | rfl)
      · exact h
      · obtain ⟨p, hp, hpk⟩ := List.any_eq_true.1 hm
        exact List.mem_map.2 ⟨p, hp, by simpa using hpk⟩
  · rw [if_neg hm]
    simp

lemma mem_keys_objAssign (entries : List (String × JsonValue)) :
    ∀ (m : StateMap) (a : String),
      a ∈ (objAssign m entries).map (fun p => p.1) ↔
        a ∈ m.map (fun p => p.1) ∨ a ∈ entries.map (fun p => p.1) := by
  induction entries with
  | nil => intro m a; simp [objAssign]
  | cons e rest ih =>
    intro m a
    show a ∈ (objAssign (setObjValue m e.1 e.2) rest).map _ ↔ _
    rw [ih, mem_keys_setObjValue]
    simp only [List.map_cons, List.mem_cons]
    tauto

lemma mem_of_mem_jsSetOfList_go (l : List String) :
    ∀ (seen : List String) (a : String), a ∈ jsSetOfList.go l seen → a ∈ l := by
  induction l with
  | nil => intro seen a h; simp [jsSetOfList.go] at h
  | cons x xs ih =>
    intro seen a h
    unfold jsSetOfList.go at h
    by_cases hx : seen.contains x
    · rw [if_pos hx] at h
      exact List.mem_cons_of_mem _ (ih seen a h)
    · rw [if_neg hx] at h
      rcases List.mem_cons.1 h with rfl | hmem
      · exact List.mem_cons_self _ _
      · exact List.mem_cons_of_mem _ (ih _ a hmem)

lemma mem_jsSetOfList_go_of_mem (l : List String) :
    ∀ (seen : List String) (a : String), a ∈ l → a ∉ seen →
      a ∈ jsSetOfList.go l seen := by
  induction l with
  | nil => intro seen a h _; simp at h
  | cons x xs ih =>
    intro seen a hmem hseen
    unfold jsSetOfList.go
    by_cases hx : seen.contains x
    · rw [if_pos hx]
      rcases List.mem_cons.1 hmem with rfl | hm
      · exact absurd (show a ∈ seen by simpa using hx) hseen
      · exact ih seen a hm hseen
    · rw [if_neg hx]
      rcases List.mem_cons.1 hmem with rfl | hm
      · exact List.mem_cons_self _ _
      · by_cases hax : a = x
        · subst hax
          exact List.mem_cons_self _ _
        · refine List.mem_cons_of_mem _ (ih _ a hm ?_)
          simp only [List.mem_cons, not_or]
          exact ⟨hax, hseen⟩

lemma objLookup_applyEnvOverrides (jp : String → Option JsonValue)
    (env : String → Option String) (ks : List String) :
    ∀ (cfg : StateMap) (k : String),
      objLookup (applyEnvOverrides jp env ks cfg) k =
        if k ∈ ks ∧ (env (envKeyForConfigKey k)).isSome then
          (env (envKeyForConfigKey k)).map (parseEnvValue jp)
        else objLookup cfg k := by
  induction ks with
  | nil => intro cfg k; simp [applyEnvOverrides]
  | cons k0 ks ih =>
    intro cfg k
    show objLookup (applyEnvOverrides jp env ks
      (match env (envKeyForConfigKey k0) with
       | some raw => setObjValue cfg k0 (parseEnvValue jp raw)
       | none => cfg)) k = _
    rw [ih]
    cases henv0 : env (envKeyForConfigKey k0) with
    | none =>
      by_cases hk : k = k0
      · subst hk
        simp [henv0]
      · simp [List.mem_cons, hk]
    | some raw0 =>
      by_cases hk : k = k0
      · subst hk
        rw [objLookup_setObjValue]
        by_cases hmem : k ∈ ks <;> simp [henv0, hmem]
      · rw [objLookup_setObjValue, if_neg hk]
        simp [List.mem_cons, hk]

/-- C10: `loadCliConfig` consults the `SWEETPAD_`-prefixed environment
override for a key only when that key comes from the project settings
file (as a `sweetpad.`-prefixed entry) or from the built-in known-key
list; an environment override for any other key is ignored, and such a
key is absent from the resulting configuration map. -/
theorem loadCliConfig_env_override_only_known (jp : String → Option JsonValue)
    (settings : Option (List (String × JsonValue))) (env : String → Option String)
    (k : String) :
    (k ∉ (extractSweetpadConfig (settings.getD [])).map (fun p => p.1) →
        k ∉ builtinConfigKeys →
        objLookup (loadCliConfig jp settings env) k = none) ∧
      (∀ raw,
        (k ∈ (extractSweetpadConfig (settings.getD [])).map (fun p => p.1) ∨
            k ∈ builtinConfigKeys) →
        env (envKeyForConfigKey k) = some raw →
        objLookup (loadCliConfig jp settings env) k =
          some (parseEnvValue jp raw)) := by
  have main : ∀ (s : List (String × JsonValue)),
      (k ∉ (extractSweetpadConfig s).map (fun p => p.1) →
          k ∉ builtinConfigKeys →
          objLookup (applyEnvOverrides jp env
            (loadCliConfigKnownKeys (objAssign [] (extractSweetpadConfig s)))
            (objAssign [] (extractSweetpadConfig s))) k = none) ∧
        (∀ raw,
          (k ∈ (extractSweetpadConfig s).map (fun p => p.1) ∨ k ∈ builtinConfigKeys) →
          env (envKeyForConfigKey k) = some raw →
          objLookup (applyEnvOverrides jp env
            (loadCliConfigKnownKeys (objAssign [] (extractSweetpadConfig s)))
            (objAssign [] (extractSweetpadConfig s))) k =
            some (parseEnvValue jp raw)) := by
    intro s
    constructor
    · intro h1 h2
      rw [objLookup_applyEnvOverrides, if_neg, objLookup_objAssign_notmem _ _ _ h1]
      · rfl
      · rintro ⟨hmem, -⟩
        rcases List.mem_append.1
            (mem_of_mem_jsSetOfList_go _ _ _ hmem) with hcfg | hb
        · rcases (mem_keys_objAssign _ _ _).1 hcfg with hnil | hext
          · simp at hnil
          · exact h1 hext
        · exact h2 hb
    · intro raw hk henv
      have hmem : k ∈ loadCliConfigKnownKeys (objAssign [] (extractSweetpadConfig s)) := by
        refine mem_jsSetOfList_go_of_mem _ _ _ ?_ (by simp)
        rcases hk with hext | hb
        · exact List.mem_append_left _
            ((mem_keys_objAssign _ _ _).2 (Or.inr hext))
        · exact List.mem_append_right _ hb
      rw [objLookup_applyEnvOverrides, if_pos ⟨hmem, by rw [henv]; rfl⟩, henv]
      rfl
  cases settings with
  | none => exact main []
  | some s => exact main s

/-- Witness for C10: with settings containing only `sweetpad.custom.key`
and the environment providing `SWEETPAD_BUILD_ARCH` and
`SWEETPAD_OTHER_KEY`, the unknown key `other.key` is absent from the
result while the built-in key `build.arch` receives its override. -/
theorem loadCliConfig_env_override_only_known_witness :
    objLookup
        (loadCliConfig (fun _ => none)
          (some [("sweetpad.custom.key", JsonValue.str "x")])
          (fun e => if e == "SWEETPAD_BUILD_ARCH" then some "arm64"
            else if e == "SWEETPAD_OTHER_KEY" then some "oops" else none))
        "other.key" = none ∧
      objLookup
        (loadCliConfig (fun _ => none)
          (some [("sweetpad.custom.key", JsonValue.str "x")])
          (fun e => if e == "SWEETPAD_BUILD_ARCH" then some "arm64"
            else if e == "SWEETPAD_OTHER_KEY" then some "oops" else none))
        "build.arch" = some (parseEnvValue (fun _ => none) "arm64") :=
  ⟨(loadCliConfig_env_override_only_known (fun _ => none)
      (some [("sweetpad.custom.key", JsonValue.str "x")])
      (fun e => if e == "SWEETPAD_BUILD_ARCH" then some "arm64"
        else if e == "SWEETPAD_OTHER_KEY" then some "oops" else none)
      "other.key").1 (by decide) (by decide),
   (loadCliConfig_env_override_only_known (fun _ => none)
      (some [("sweetpad.custom.key", JsonValue.str "x")])
      (fun e => if e == "SWEETPAD_BUILD_ARCH" then some "arm64"
        else if e == "SWEETPAD_OTHER_KEY" then some "oops" else none)
      "build.arch").2 "arm64" (Or.inr (by decide)) (by decide)⟩

/-- Errors thrown by the pickers (`ExtensionError` messages in the
source). -/
inductive PickError where
  | noSchemes
  | noWorkspaces
  | noDestinations
deriving DecidableEq, Repr

/-- `DEFAULT_DEBUG_CONFIGURATION` (src/cli/config.ts). -/
def DEFAULT_DEBUG_CONFIGURATION : String := "Debug"

/-- `DEFAULT_RELEASE_CONFIGURATION` (src/cli/config.ts). -/
def DEFAULT_RELEASE_CONFIGURATION : String := "Release"

/-- The remembered value as the smart pickers consume it:
`context.getRememberedValue<string>(key)` followed by the JavaScript
truthiness guard (`remembered && ...` / `if (rememberedId)`).  An absent
key, an empty string (falsy) and a non-string value (truthy, but it
compares unequal to every candidate name at every use site) all behave
exactly like `none` in the four pickers, which all guard the remembered
value before comparing it with string candidates. -/
def getRememberedString (ctx : CliCtx) (key : String) : Option String :=
  match ctxGetRememberedValue ctx key with
  | some (.str s) => if s == "" then none else some s
  | _ => none

/-- `pickScheme` (src/cli/config.ts): empty is an error, a single scheme
short-circuits, otherwise the fzf collaborator (`picker`) chooses. -/
def pickScheme (schemes : List String) (picker : List String → String) :
    Except PickError String :=
  match schemes with
  | [] => .error .noSchemes
  | [s] => .ok s
  | _ => .ok (picker schemes)

/-- `pickSchemeSmart` (src/cli/config.ts). -/
def pickSchemeSmart (ctx : CliCtx) (schemes : List String)
    (picker : List String → String) : (Except PickError String) × CliCtx :=
  let remembered := getRememberedString ctx "cli.scheme"
  if schemes = [] then (.error .noSchemes, ctx)
  else
    match remembered.bind (fun r => schemes.find? (fun s => s == r)) with
    | some s => (.ok s, ctx)
    | none =>
      match pickScheme schemes picker with
      | .ok sel => (.ok sel, ctxSetRememberedValue ctx "cli.scheme" (.str sel))
      | .error e => (.error e, ctx)

/-- `pickConfiguration` (src/cli/config.ts): empty falls back to the
Debug default, a single configuration short-circuits, the two-element
Debug/Release set short-circuits to Debug, otherwise fzf chooses. -/
def pickConfiguration (configurations : List String)
    (picker : List String → String) : String :=
  if configurations = [] then DEFAULT_DEBUG_CONFIGURATION
  else if configurations.length == 1 then configurations.headD ""
  else if configurations.length == 2 &&
      configurations.any (fun c => c == DEFAULT_DEBUG_CONFIGURATION) &&
      configurations.any (fun c => c == DEFAULT_RELEASE_CONFIGURATION) then
    DEFAULT_DEBUG_CONFIGURATION
  else picker configurations

/-- `pickConfigurationSmart` (src/cli/config.ts).  Note the source checks
the empty/single/Debug-Release shortcuts before consulting the
remembered value. -/
def pickConfigurationSmart (ctx : CliCtx) (configurations : List String)
    (picker : List String → String) : (Except PickError String) × CliCtx :=
  let remembered := getRememberedString ctx "cli.configuration"
  if configurations = [] then (.ok DEFAULT_DEBUG_CONFIGURATION, ctx)
  else if configurations.length == 1 then (.ok (configurations.headD ""), ctx)
  else if configurations.length == 2 &&
      configurations.any (fun c => c == DEFAULT_DEBUG_CONFIGURATION) &&
      configurations.any (fun c => c == DEFAULT_RELEASE_CONFIGURATION) then
    (.ok DEFAULT_DEBUG_CONFIGURATION, ctx)
  else
    match remembered.bind (fun r => configurations.find? (fun c => c == r)) with
    | some c => (.ok c, ctx)
    | none =>
      let sel := pickConfiguration configurations picker
      (.ok sel, ctxSetRememberedValue ctx "cli.configuration" (.str sel))

/-- `pickXcodeWorkspacePath` (src/cli/config.ts).  The source sorts the
candidates by path depth purely for presentation inside fzf; the oracle
`picker` abstracts the interactive choice, so that ordering is
immaterial here. -/
def pickXcodeWorkspacePath (paths : List String)
    (picker : List String → String) : Except PickError String :=
  match paths with
  | [] => .error .noWorkspaces
  | [p] => .ok p
  | _ => .ok (picker paths)

/-- `pickXcodeWorkspacePathSmart` (src/cli/config.ts): the remembered
path is honoured (when still detected) before the single-candidate
shortcut. -/
def pickXcodeWorkspacePathSmart (ctx : CliCtx) (paths : List String)
    (picker : List String → String) : (Except PickError String) × CliCtx :=
  let remembered := getRememberedString ctx "cli.xcworkspace"
  if paths = [] then (.error .noWorkspaces, ctx)
  else
    let fallback :=
      if paths.length == 1 then ((.ok (paths.headD "")), ctx)
      else
        match pickXcodeWorkspacePath paths picker with
        | .ok sel => (.ok sel, ctxSetRememberedValue ctx "cli.xcworkspace" (.str sel))
        | .error e => (.error e, ctx)
    match remembered with
    | some r => if paths.contains r then (.ok r, ctx) else fallback
    | none => fallback

/-- An execution target as the pickers see it (`Destination` in
src/destination/types.ts): a stable `id`, the `udid` field present on
simulator and device variants and absent on the local machine, plus the
display strings.  The platform-specific payload plays no role in the
embedded logic. -/
structure Dest where
  id : String
  udid : Option String
  name : String
  label : String
deriving DecidableEq, Repr

/-- A default destination used only to make oracle pickers total. -/
def defaultDest : Dest :=
  ⟨"", none, "", ""⟩

/-- The remembered-id comparison of `pickDestinationSmart`
(src/cli/config.ts): `"udid" in d ? d.udid === id || d.id === id :
d.id === id`. -/
def matchesRememberedId (rid : String) (d : Dest) : Bool :=
  match d.udid with
  | some u => u == rid || d.id == rid
  | none => d.id == rid

/-- `pickDestination` (src/cli/config.ts): error when both partitions are
empty, otherwise fzf chooses from the supported entries followed by the
unsupported ones. -/
def pickDestination (supported unsupported : List Dest)
    (picker : List Dest → Dest) : Except PickError Dest :=
  if supported.isEmpty && unsupported.isEmpty then .error .noDestinations
  else .ok (picker (supported ++ unsupported))

/-- `pickDestinationSmart` (src/cli/config.ts): the remembered id is
auto-selected only when the destination it finds lies in the supported
partition.  The `supported`/`unsupported` pair is the output of the
external `splitSupportedDestinatinos` collaborator. -/
def pickDestinationSmart (ctx : CliCtx) (supported unsupported : List Dest)
    (picker : List Dest → Dest) : (Except PickError Dest) × CliCtx :=
  let rememberedId := getRememberedString ctx "cli.destination.id"
  if supported.isEmpty && unsupported.isEmpty then (.error .noDestinations, ctx)
  else
    let allDestinations := supported ++ unsupported
    let auto := rememberedId.bind (fun rid =>
      match allDestinations.find? (matchesRememberedId rid) with
      | some d => if supported.contains d then some d else none
      | none => none)
    match auto with
    | some d => (.ok d, ctx)
    | none =>
      match pickDestination supported unsupported picker with
      | .ok sel => (.ok sel, ctxSetRememberedValue ctx "cli.destination.id" (.str sel.id))
      | .error e => (.error e, ctx)

/-- `Except.isOk` spelled out, used to state that a resolution returned a
value rather than failing. -/
def exceptIsOk {ε α : Type} : Except ε α → Bool
  | .ok _ => true
  | .error _ => false

/-- C3 (amended): with an empty available-options set, workspace, scheme
and destination resolution fail hard, while configuration resolution
returns the built-in default "Debug" instead of failing. -/
theorem empty_options_resolution_behaviour :
    (∀ (ctx : CliCtx) (picker : List String → String),
        pickSchemeSmart ctx [] picker = (.error .noSchemes, ctx)) ∧
      (∀ (ctx : CliCtx) (picker : List String → String),
        pickXcodeWorkspacePathSmart ctx [] picker = (.error .noWorkspaces, ctx)) ∧
      (∀ (ctx : CliCtx) (picker : List Dest → Dest),
        pickDestinationSmart ctx [] [] picker = (.error .noDestinations, ctx)) ∧
      (∀ (ctx : CliCtx) (picker : List String → String),
        pickConfigurationSmart ctx [] picker =
          (.ok DEFAULT_DEBUG_CONFIGURATION, ctx)) :=
  ⟨fun _ _ => rfl, fun _ _ => rfl, fun _ _ => rfl, fun _ _ => rfl⟩

/-- Counterexample to C3 as stated: configuration resolution over an
empty set does not fail; it returns "Debug". -/
theorem pickConfigurationSmart_empty_returns_default :
    pickConfigurationSmart ⟨[("cli.configuration", JsonValue.str "Release")], false⟩ []
        (fun _ => "X") =
      (.ok "Debug", ⟨[("cli.configuration", JsonValue.str "Release")], false⟩) ∧
      exceptIsOk (pickConfigurationSmart
        ⟨[("cli.configuration", JsonValue.str "Release")], false⟩ []
        (fun _ => "X")).1 = true :=
  ⟨rfl, rfl⟩

/-- Counterexample to C2 as stated: with available configurations
`{"Debug","Release"}` and remembered value "Release", resolution returns
"Debug" (the two-element Debug/Release shortcut runs before the
remembered value is consulted), not the remembered "Release". -/
theorem pickConfigurationSmart_debug_release_ignores_remembered :
    pickConfigurationSmart ⟨[("cli.configuration", JsonValue.str "Release")], false⟩
        ["Debug", "Release"] (fun _ => "X") =
      (.ok "Debug", ⟨[("cli.configuration", JsonValue.str "Release")], false⟩) ∧
      ("Debug" : String) ≠ "Release" :=
  ⟨rfl, by decide⟩

/-- C2 (amended): when no explicit value is supplied and the remembered
value is present among the currently available options, each smart
picker returns the remembered value without invoking the interactive
picker and without writing memory — except configuration resolution,
where the two-element Debug/Release shortcut takes precedence over the
remembered value; destination resolution requires the remembered match
to lie in the supported partition. -/
theorem remembered_value_auto_selected :
    (∀ (ctx : CliCtx) (schemes : List String) (r : String)
        (picker : List String → String),
        getRememberedString ctx "cli.scheme" = some r →
        r ∈ schemes → 1 < schemes.length →
        pickSchemeSmart ctx schemes picker = (.ok r, ctx)) ∧
      (∀ (ctx : CliCtx) (paths : List String) (r : String)
        (picker : List String → String),
        getRememberedString ctx "cli.xcworkspace" = some r →
        r ∈ paths → 1 < paths.length →
        pickXcodeWorkspacePathSmart ctx paths picker = (.ok r, ctx)) ∧
      (∀ (ctx : CliCtx) (configurations : List String) (r : String)
        (picker : List String → String),
        getRememberedString ctx "cli.configuration" = some r →
        r ∈ configurations → 1 < configurations.length →
        (configurations.length == 2 &&
          configurations.any (fun c => c == DEFAULT_DEBUG_CONFIGURATION) &&
          configurations.any (fun c => c == DEFAULT_RELEASE_CONFIGURATION)) = false →
        pickConfigurationSmart ctx configurations picker = (.ok r, ctx)) ∧
      (∀ (ctx : CliCtx) (supported unsupported : List Dest) (rid : String)
        (d : Dest) (picker : List Dest → Dest),
        getRememberedString ctx "cli.destination.id" = some rid →
        (supported ++ unsupported).find? (matchesRememberedId rid) = some d →
        d ∈ supported →
        pickDestinationSmart ctx supported unsupported picker = (.ok d, ctx)) := by
  refine ⟨?_, ?_, ?_, ?_⟩
  · intro ctx schemes r picker hrem hmem hlen
    have hne : ¬ schemes = [] := by
      rintro rfl
      simp at hlen
    have hsome : (schemes.find? (fun s => s == r)).isSome := by
      rw [List.find?_isSome]
      exact ⟨r, hmem, by simp⟩
    obtain ⟨s, hs⟩ := Option.isSome_iff_exists.1 hsome
    have hsr : s = r := by simpa using List.find?_some hs
    subst hsr
    simp [pickSchemeSmart, hrem, hne, hs]
  · intro ctx paths r picker hrem hmem hlen
    have hne : ¬ paths = [] := by
      rintro rfl
      simp at hlen
    simp [pickXcodeWorkspacePathSmart, hrem, hne, hmem]
  · intro ctx configurations r picker hrem hmem hlen hpair
    have hne : ¬ configurations = [] := by
      rintro rfl
      simp at hlen
    have hlen1 : (configurations.length == 1) = false := by
      simp only [beq_eq_false_iff_ne]
      omega
    have hsome : (configurations.find? (fun c => c == r)).isSome := by
      rw [List.find?_isSome]
      exact ⟨r, hmem, by simp⟩
    obtain ⟨s, hs⟩ := Option.isSome_iff_exists.1 hsome
    have hsr : s = r := by simpa using List.find?_some hs
    subst hsr
    simp [pickConfigurationSmart, hrem, hne, hlen1, hpair, hs]
  · intro ctx supported unsupported rid d picker hrem hfind hdsup
    have hne : supported.isEmpty = false := by
      cases supported with
      | nil => exact absurd hdsup (List.not_mem_nil _)
      | cons a l => rfl
    have hor : (List.find? (matchesRememberedId rid) supported).or
        (List.find? (matchesRememberedId rid) unsupported) = some d := by
      rw [← List.find?_append]
      exact hfind
    simp [pickDestinationSmart, hrem, hne, hor, hdsup]

/-- Witness for C2 (amended) at Scenario B of the spec: schemes
`{"MyApp","MyAppTests"}` with remembered "MyApp" resolve to "MyApp"
without the picker being consulted. -/
theorem remembered_value_auto_selected_witness :
    getRememberedString ⟨[("cli.scheme", JsonValue.str "MyApp")], false⟩ "cli.scheme" =
        some "MyApp" ∧
      "MyApp" ∈ ["MyApp", "MyAppTests"] ∧ 1 < (["MyApp", "MyAppTests"] : List String).length ∧
      pickSchemeSmart ⟨[("cli.scheme", JsonValue.str "MyApp")], false⟩
          ["MyApp", "MyAppTests"] (fun _ => "MyAppTests") =
        (.ok "MyApp", ⟨[("cli.scheme", JsonValue.str "MyApp")], false⟩) :=
  ⟨rfl, by decide, by decide,
    remembered_value_auto_selected.1 ⟨[("cli.scheme", JsonValue.str "MyApp")], false⟩
      ["MyApp", "MyAppTests"] "MyApp" (fun _ => "MyAppTests") rfl (by decide) (by decide)⟩

/-- C4: a remembered destination id whose match lies only in the
unsupported partition is never auto-selected; resolution falls through
to the interactive picker (whose choice is then written to memory). -/
theorem pickDestinationSmart_skips_unsupported_remembered
    (ctx : CliCtx) (supported unsupported : List Dest)
    (picker : List Dest → Dest) (rid : String)
    (hrem : getRememberedString ctx "cli.destination.id" = some rid)
    (hunsup : ∃ d ∈ unsupported, matchesRememberedId rid d = true)
    (hsup : ∀ d ∈ supported, matchesRememberedId rid d = false) :
    pickDestinationSmart ctx supported unsupported picker =
      (.ok (picker (supported ++ unsupported)),
        ctxSetRememberedValue ctx "cli.destination.id"
          (.str (picker (supported ++ unsupported)).id)) := by
  obtain ⟨d0, hd0mem, hd0⟩ := hunsup
  have hne : unsupported.isEmpty = false := by
    cases unsupported with
    | nil => exact absurd hd0mem (List.not_mem_nil _)
    | cons a l => rfl
  have hempty : (supported.isEmpty && unsupported.isEmpty) = false := by
    rw [hne, Bool.and_false]
  have hfindsup : List.find? (matchesRememberedId rid) supported = none := by
    rw [List.find?_eq_none]
    intro d hd
    simp [hsup d hd]
  have hsome : (List.find? (matchesRememberedId rid) unsupported).isSome := by
    rw [List.find?_isSome]
    exact ⟨d0, hd0mem, hd0⟩
  obtain ⟨du, hdu⟩ := Option.isSome_iff_exists.1 hsome
  have hfindall : List.find? (matchesRememberedId rid) (supported ++ unsupported) =
      some du := by
    rw [List.find?_append, hfindsup, Option.none_or, hdu]
  have hdumatch : matchesRememberedId rid du = true := List.find?_some hdu
  have hcontains : supported.contains du = false := by
    by_contra hc
    simp only [Bool.not_eq_false] at hc
    have hmem : du ∈ supported := by simpa using hc
    rw [hsup du hmem] at hdumatch
    exact Bool.false_ne_true hdumatch
  have hnotmem : du ∉ supported := by
    intro hmem
    rw [hsup du hmem] at hdumatch
    exact Bool.false_ne_true hdumatch
  have hor : (List.find? (matchesRememberedId rid) supported).or
      (List.find? (matchesRememberedId rid) unsupported) = some du := by
    rw [hfindsup, Option.none_or]
    exact hdu
  simp [pickDestinationSmart, pickDestination, hrem, hempty, hor, hnotmem]

/-- Witness for C4 at Scenario C of the spec: remembered id "ABC-123" is
matched only by an unsupported destination, so the interactive pick
runs. -/
theorem pickDestinationSmart_skips_unsupported_remembered_witness :
    getRememberedString ⟨[("cli.destination.id", JsonValue.str "ABC-123")], false⟩
        "cli.destination.id" = some "ABC-123" ∧
      pickDestinationSmart ⟨[("cli.destination.id", JsonValue.str "ABC-123")], false⟩
          [⟨"dest-1", some "DEF-456", "iPhone 15", "iPhone 15"⟩]
          [⟨"dest-2", some "ABC-123", "Watch", "Watch"⟩]
          (fun l => l.headD defaultDest) =
        (.ok ((fun (l : List Dest) => l.headD defaultDest)
            ([⟨"dest-1", some "DEF-456", "iPhone 15", "iPhone 15"⟩] ++
              [⟨"dest-2", some "ABC-123", "Watch", "Watch"⟩])),
          ctxSetRememberedValue ⟨[("cli.destination.id", JsonValue.str "ABC-123")], false⟩
            "cli.destination.id"
            (.str ((fun (l : List Dest) => l.headD defaultDest)
              ([⟨"dest-1", some "DEF-456", "iPhone 15", "iPhone 15"⟩] ++
                [⟨"dest-2", some "ABC-123", "Watch", "Watch"⟩])).id)) :=
  ⟨rfl,
    pickDestinationSmart_skips_unsupported_remembered
      ⟨[("cli.destination.id", JsonValue.str "ABC-123")], false⟩
      [⟨"dest-1", some "DEF-456", "iPhone 15", "iPhone 15"⟩]
      [⟨"dest-2", some "ABC-123", "Watch", "Watch"⟩]
      (fun l => l.headD defaultDest) "ABC-123" rfl (by decide) (by decide)⟩

/-- The `NO_VALUE` sentinel of `XcodeCommandBuilder`
(src/build/runner.ts): marks a parameter entry that is a bare option
flag; filtered out at render time. -/
def NO_VALUE : String := "__NO_VALUE__"

/-- A `{ arg, value }` entry of `XcodeCommandBuilder.parameters`. -/
structure BuildParam where
  arg : String
  value : String
deriving DecidableEq, Repr

/-- A `{ key, value }` entry of `XcodeCommandBuilder.buildSettings`. -/
structure BuildSetting where
  key : String
  value : String
deriving DecidableEq, Repr

/-- The state of `XcodeCommandBuilder` (src/build/runner.ts): the three
argument classes accumulated before serialization. -/
structure XcodeBuilder where
  buildSettings : List BuildSetting
  parameters : List BuildParam
  actions : List String
deriving DecidableEq, Repr

/-- A freshly constructed `XcodeCommandBuilder`. -/
def XcodeBuilder.empty : XcodeBuilder :=
  ⟨[], [], []⟩

/-- `addBuildSettings`. -/
def addBuildSettings (b : XcodeBuilder) (key value : String) : XcodeBuilder :=
  ⟨b.buildSettings ++ [⟨key, value⟩], b.parameters, b.actions⟩

/-- `addOption`: a bare flag, recorded with the `NO_VALUE` sentinel. -/
def addOption (b : XcodeBuilder) (flag : String) : XcodeBuilder :=
  ⟨b.buildSettings, b.parameters ++ [⟨flag, NO_VALUE⟩], b.actions⟩

/-- `addParameters`. -/
def addParameters (b : XcodeBuilder) (arg value : String) : XcodeBuilder :=
  ⟨b.buildSettings, b.parameters ++ [⟨arg, value⟩], b.actions⟩

/-- `addAction`. -/
def addAction (b : XcodeBuilder) (action : String) : XcodeBuilder :=
  ⟨b.buildSettings, b.parameters, b.actions ++ [action]⟩

/-- The recognized action verbs of the free-form scanner. -/
def actionVerbs : List String :=
  ["clean", "build", "test"]

/-- One step of the free-form token classification inside
`addAdditionalArgs`, for a token not consumed as the value of a
preceding flag: bare flag / `KEY=VALUE` build setting (JavaScript
`split("=")` splits on every occurrence and the destructuring takes only
the first two pieces) / action verb / unknown (warned about and
discarded). -/
def scanOne (b : XcodeBuilder) (current : String) : XcodeBuilder :=
  if strStartsWith current "-" then
    ⟨b.buildSettings, b.parameters ++ [⟨current, NO_VALUE⟩], b.actions⟩
  else if strContainsChar current '=' then
    match strSplitOnChar current '=' with
    | arg :: value :: _ => ⟨b.buildSettings ++ [⟨arg, value⟩], b.parameters, b.actions⟩
    | _ => b
  else if actionVerbs.contains current then
    ⟨b.buildSettings, b.parameters, b.actions ++ [current]⟩
  else
    b

/-- The scanning loop of `addAdditionalArgs` (src/build/runner.ts): a
flag token followed by a non-flag token is consumed greedily as a
`(flag, value)` pair (both tokens must be truthy, i.e. non-empty);
otherwise the token is classified on its own by `scanOne`. -/
def scanArgs (b : XcodeBuilder) : List String → XcodeBuilder
  | [] => b
  | [current] => scanOne b current
  | current :: next :: rest =>
    if (current != "") && (next != "") && strStartsWith current "-" &&
        !(strStartsWith next "-") then
      scanArgs ⟨b.buildSettings, b.parameters ++ [⟨current, next⟩], b.actions⟩ rest
    else
      scanArgs (scanOne b current) (next :: rest)

/-- The `Set`-based filter used by the three dedup passes of
`addAdditionalArgs`: keep an entry when its key has not been seen yet. -/
def filterSeen {α : Type} (key : α → String) : List α → List String → List α
  | [], _ => []
  | x :: xs, seen =>
    if seen.contains (key x) then filterSeen key xs seen
    else x :: filterSeen key xs (key x :: seen)

/-- reverse / keep-first-seen / reverse: the dedup applied to build
settings and parameters. -/
def dedupLastBy {α : Type} (key : α → String) (l : List α) : List α :=
  (filterSeen key l.reverse []).reverse

/-- forward keep-first-seen: the dedup applied to actions. -/
def dedupFirstBy {α : Type} (key : α → String) (l : List α) : List α :=
  filterSeen key l []

/-- `addAdditionalArgs` (src/build/runner.ts): early return on an empty
token list (skipping the dedup passes), otherwise scan the tokens and
then deduplicate each of the three classes independently. -/
def addAdditionalArgs (b : XcodeBuilder) (args : List String) : XcodeBuilder :=
  if args = [] then b
  else
    let scanned := scanArgs b args
    ⟨dedupLastBy (fun s => s.key) scanned.buildSettings,
     dedupLastBy (fun p => p.arg) scanned.parameters,
     dedupFirstBy (fun a => a) scanned.actions⟩

/-- `XcodeCommandBuilder.build`: serialize to the argument vector —
program name, `KEY=VALUE` settings, parameters (the `NO_VALUE` sentinel
suppresses the value token), then actions. -/
def buildCommand (b : XcodeBuilder) : List String :=
  "xcodebuild" ::
    (b.buildSettings.map (fun s => s.key ++ "=" ++ s.value) ++
      b.parameters.flatMap
        (fun p => if p.value == NO_VALUE then [p.arg] else [p.arg, p.value]) ++
      b.actions)

/-- The pure command-assembly part of `buildApp` (src/build/runner.ts):
the structured declarations in source order followed by
`addAdditionalArgs`.  `arch` models `getConfig("build.arch") ||
undefined` (so a falsy value is `none`); `derivedDataPath` is the
prepared derived-data path when configured. -/
def buildAppBuilder (arch : Option String) (debug : Bool)
    (scheme configuration xcworkspace destinationRaw bundlePath : String)
    (derivedDataPath : Option String) (allowProvisioningUpdates : Bool)
    (shouldClean shouldBuild shouldTest : Bool)
    (additionalArgs : List String) : XcodeBuilder :=
  let b := XcodeBuilder.empty
  let b := match arch with
    | some a =>
      addBuildSettings (addBuildSettings (addBuildSettings b "ARCHS" a)
        "VALID_ARCHS" a) "ONLY_ACTIVE_ARCH" "NO"
    | none => b
  let b := if debug then
      addBuildSettings (addBuildSettings b "GCC_GENERATE_DEBUGGING_SYMBOLS" "YES")
        "ONLY_ACTIVE_ARCH" "YES"
    else b
  let b := addParameters b "-scheme" scheme
  let b := addParameters b "-configuration" configuration
  let b := addParameters b "-workspace" xcworkspace
  let b := addParameters b "-destination" destinationRaw
  let b := addParameters b "-resultBundlePath" bundlePath
  let b := match derivedDataPath with
    | some ddp => addParameters b "-derivedDataPath" ddp
    | none => b
  let b := if allowProvisioningUpdates then addOption b "-allowProvisioningUpdates" else b
  let b := if shouldClean then addAction b "clean" else b
  let b := if shouldBuild then addAction b "build" else b
  let b := if shouldTest then addAction b "test" else b
  addAdditionalArgs b additionalArgs

/-- The command vector `buildApp` hands to the terminal. -/
def buildAppCommand (arch : Option String) (debug : Bool)
    (scheme configuration xcworkspace destinationRaw bundlePath : String)
    (derivedDataPath : Option String) (allowProvisioningUpdates : Bool)
    (shouldClean shouldBuild shouldTest : Bool)
    (additionalArgs : List String) : List String :=
  buildCommand (buildAppBuilder arch debug scheme configuration xcworkspace
    destinationRaw bundlePath derivedDataPath allowProvisioningUpdates
    shouldClean shouldBuild shouldTest additionalArgs)

/-- Reference dedup: keep an entry exactly when no later entry has the
same key, i.e. every surviving entry is the last declaration of its key,
left at its own position. -/
def keepLast {α : Type} (key : α → String) : List α → List α
  | [] => []
  | x :: xs =>
    if xs.any (fun y => key y == key x) then keepLast key xs
    else x :: keepLast key xs

lemma strBeq_comm (a b : String) : (a == b) = (b == a) := by
  by_cases h : a = b
  · simp [h]
  · have h' : ¬ b = a := fun he => h he.symm
    simp [h, h']

lemma filterSeen_cons_of_seen {α : Type} (key : α → String) (x : α) (xs : List α)
    (seen : List String) (h : seen.contains (key x) = true) :
    filterSeen key (x :: xs) seen = filterSeen key xs seen := by
  unfold filterSeen
  rw [if_pos h]
  cases xs <;> rfl

lemma filterSeen_cons_of_not_seen {α : Type} (key : α → String) (x : α) (xs : List α)
    (seen : List String) (h : seen.contains (key x) = false) :
    filterSeen key (x :: xs) seen = x :: filterSeen key xs (key x :: seen) := by
  unfold filterSeen
  rw [if_neg (ne_true_of_eq_false h)]
  cases xs <;> rfl

lemma filterSeen_append_singleton {α : Type} (key : α → String) (x : α) :
    ∀ (m : List α) (seen : List String),
      filterSeen key (m ++ [x]) seen =
        filterSeen key m seen ++
          (if seen.contains (key x) || m.any (fun y => key y == key x) then []
           else [x]) := by
  intro m
  induction m with
  | nil =>
    intro seen
    by_cases hs : seen.contains (key x) = true
    · have hmem : key x ∈ seen := by simpa using hs
      rw [show ([] : List α) ++ [x] = [x] from rfl,
        filterSeen_cons_of_seen key x [] seen hs]
      simp [filterSeen, hmem]
    · have hs' : seen.contains (key x) = false := by simpa using hs
      have hnot : key x ∉ seen := by simpa using hs
      rw [show ([] : List α) ++ [x] = [x] from rfl,
        filterSeen_cons_of_not_seen key x [] seen hs']
      simp [filterSeen, hnot]
  | cons y ys ih =>
    intro seen
    by_cases hy : seen.contains (key y) = true
    · have hcondeq :
          (seen.contains (key x) || ys.any (fun z => key z == key x)) =
            (seen.contains (key x) || (y :: ys).any (fun z => key z == key x)) := by
        simp only [List.any_cons]
        by_cases hxy : (key y == key x) = true
        · have hk : key y = key x := by simpa using hxy
          rw [← hk, hy]
          simp
        · have hxy' : (key y == key x) = false := by simpa using hxy
          rw [hxy']
          simp
      rw [List.cons_append, filterSeen_cons_of_seen key y (ys ++ [x]) seen hy,
        filterSeen_cons_of_seen key y ys seen hy, ih seen, hcondeq]
    · have hy' : seen.contains (key y) = false := by simpa using hy
      have hcondeq :
          ((key y :: seen).contains (key x) || ys.any (fun z => key z == key x)) =
            (seen.contains (key x) || (y :: ys).any (fun z => key z == key x)) := by
        simp only [List.contains_cons, List.any_cons, strBeq_comm (key x) (key y)]
        cases key y == key x <;> cases seen.contains (key x) <;>
          cases ys.any (fun z => key z == key x) <;> rfl
      rw [List.cons_append, filterSeen_cons_of_not_seen key y (ys ++ [x]) seen hy',
        filterSeen_cons_of_not_seen key y ys seen hy', ih (key y :: seen), hcondeq,
        List.cons_append]

lemma dedupLastBy_eq_keepLast {α : Type} (key : α → String) :
    ∀ l : List α, dedupLastBy key l = keepLast key l := by
  intro l
  induction l with
  | nil => rfl
  | cons x xs ih =>
    show (filterSeen key (x :: xs).reverse []).reverse = _
    rw [List.reverse_cons, filterSeen_append_singleton, List.reverse_append]
    have hc : ((([] : List String).contains (key x) ||
        xs.reverse.any (fun y => key y == key x))) =
        xs.any (fun y => key y == key x) := by
      simp
    rw [hc]
    unfold keepLast
    by_cases hx : xs.any (fun y => key y == key x) = true
    · rw [if_pos hx, if_pos hx]
      show List.reverse [] ++ dedupLastBy key xs = keepLast key xs
      simpa using ih
    · rw [if_neg hx, if_neg hx]
      show [x] ++ dedupLastBy key xs = x :: keepLast key xs
      simp [ih]

lemma dedupFirstBy_eq_reverse_keepLast {α : Type} (key : α → String) (l : List α) :
    dedupFirstBy key l = (keepLast key l.reverse).reverse := by
  have h := dedupLastBy_eq_keepLast key l.reverse
  unfold dedupLastBy at h
  rw [List.reverse_reverse] at h
  calc dedupFirstBy key l = filterSeen key l [] := rfl
  _ = ((filterSeen key l []).reverse).reverse := by rw [List.reverse_reverse]
  _ = (keepLast key l.reverse).reverse := by rw [h]

lemma find?_keepLast {α : Type} (key : α → String) (k : String) :
    ∀ l : List α, (keepLast key l).find? (fun y => key y == k) =
      l.reverse.find? (fun y => key y == k) := by
  intro l
  induction l with
  | nil => rfl
  | cons x xs ih =>
    rw [List.reverse_cons, List.find?_append]
    unfold keepLast
    by_cases hx : xs.any (fun y => key y == key x) = true
    · rw [if_pos hx, ih]
      by_cases hk : (key x == k) = true
      · have hkk : key x = k := by simpa using hk
        have hsome : (xs.reverse.find? (fun y => key y == k)).isSome := by
          rw [List.find?_isSome]
          obtain ⟨y, hy, hyk⟩ := List.any_eq_true.1 hx
          refine ⟨y, by simpa using hy, ?_⟩
          rw [← hkk]
          exact hyk
        obtain ⟨z, hz⟩ := Option.isSome_iff_exists.1 hsome
        rw [hz]
        rfl
      · have hkb : (key x == k) = false := by simpa using hk
        rw [List.find?_singleton, if_neg (ne_true_of_eq_false hkb), Option.or_none]
    · by_cases hk : (key x == k) = true
      · have hkk : key x = k := by simpa using hk
        rw [if_neg hx, find?_cons_pos (fun y => key y == k) x _ hk]
        have hnone : xs.reverse.find? (fun y => key y == k) = none := by
          rw [List.find?_eq_none]
          intro y hy hp
          refine hx (List.any_eq_true.2 ⟨y, (List.mem_reverse).1 hy, ?_⟩)
          rw [hkk]
          exact hp
        rw [hnone, Option.none_or, List.find?_singleton, if_pos hk]
      · have hkb : (key x == k) = false := by simpa using hk
        rw [if_neg hx, find?_cons_neg (fun y => key y == k) x _ hkb, ih,
          List.find?_singleton, if_neg (ne_true_of_eq_false hkb), Option.or_none]

lemma countP_keepLast {α : Type} (key : α → String) (k : String) :
    ∀ l : List α, (keepLast key l).countP (fun y => key y == k) =
      if l.any (fun y => key y == k) then 1 else 0 := by
  intro l
  induction l with
  | nil => rfl
  | cons x xs ih =>
    unfold keepLast
    rw [List.any_cons]
    by_cases hx : xs.any (fun y => key y == key x) = true
    · rw [if_pos hx, ih]
      by_cases hk : (key x == k) = true
      · have hkk : key x = k := by simpa using hk
        have hxs : xs.any (fun y => key y == k) = true := by
          obtain ⟨y, hy, hyk⟩ := List.any_eq_true.1 hx
          refine List.any_eq_true.2 ⟨y, hy, ?_⟩
          rw [← hkk]
          exact hyk
        rw [hxs, hk]
        simp
      · have hkb : (key x == k) = false := by simpa using hk
        rw [hkb, Bool.false_or]
    · rw [if_neg hx, List.countP_cons, ih]
      by_cases hk : (key x == k) = true
      · have hkk : key x = k := by simpa using hk
        have hxs : xs.any (fun y => key y == k) = false := by
          by_contra hc
          simp only [Bool.not_eq_false] at hc
          obtain ⟨y, hy, hyk⟩ := List.any_eq_true.1 hc
          refine hx (List.any_eq_true.2 ⟨y, hy, ?_⟩)
          rw [hkk]
          exact hyk
        rw [hxs, hk]
        simp
      · have hkb : (key x == k) = false := by simpa using hk
        rw [hkb, Bool.false_or]
        simp [hkb]

/-- The text before the first occurrence of `c` in `s`. -/
def takeUntilChar (s : String) (c : Char) : String :=
  String.mk (s.data.takeWhile (fun x => x != c))

/-- The characters after the first occurrence of `c` in `s`. -/
def afterFirstChar (s : String) (c : Char) : List Char :=
  (s.data.dropWhile (fun x => x != c)).drop 1

/-- The text between the first and the second occurrence of `c` in `s`
(the whole remainder when there is no second occurrence). -/
def secondSegment (s : String) (c : Char) : String :=
  String.mk ((afterFirstChar s c).takeWhile (fun x => x != c))

lemma takeWhile_eq_self_of_not_contains (c : Char) :
    ∀ l : List Char, l.contains c = false → l.takeWhile (fun x => x != c) = l := by
  intro l
  induction l with
  | nil => intro _; rfl
  | cons x xs ih =>
    intro h
    rw [List.contains_cons] at h
    have hx : (c == x) = false := by
      cases hcx : c == x
      · rfl
      · rw [hcx] at h
        simp at h
    have hxs : xs.contains c = false := by
      cases hcs : xs.contains c
      · rfl
      · rw [hcs] at h
        simp at h
    have hxc : (x != c) = true := by
      have : ¬ c = x := by simpa using hx
      simp [bne]
      exact fun he => this he.symm
    rw [List.takeWhile_cons, hxc]
    simp [ih hxs]

lemma splitOnCharAux_cons (c x : Char) (xs acc : List Char) :
    splitOnCharAux c (x :: xs) acc =
      if x = c then acc.reverse :: splitOnCharAux c xs []
      else splitOnCharAux c xs (x :: acc) := by
  unfold splitOnCharAux
  by_cases hx : x = c
  · rw [if_pos hx, if_pos hx]
    cases xs <;> rfl
  · rw [if_neg hx, if_neg hx]
    cases xs <;> rfl

lemma splitOnCharAux_spec (c : Char) :
    ∀ (l acc : List Char),
      splitOnCharAux c l acc =
        if l.contains c then
          (acc.reverse ++ l.takeWhile (fun x => x != c)) ::
            splitOnCharAux c ((l.dropWhile (fun x => x != c)).drop 1) []
        else [acc.reverse ++ l] := by
  intro l
  induction l with
  | nil =>
    intro acc
    simp [splitOnCharAux]
  | cons x xs ih =>
    intro acc
    by_cases hx : x = c
    · subst hx
      rw [splitOnCharAux_cons, if_pos rfl]
      simp
    · have hbne : (x != c) = true := by simp [hx]
      have hcb : (c == x) = false := by
        have hne : ¬ c = x := fun he => hx he.symm
        simpa using hne
      have hnx : ¬ c = x := fun he => hx he.symm
      rw [splitOnCharAux_cons, if_neg hx, ih (x :: acc)]
      by_cases hcs : xs.contains c = true
      · simp [hcs, hcb, hbne, hnx]
      · have hcs' : xs.contains c = false := by simpa using hcs
        simp [hcs', hcb, hbne, hnx]

lemma strSplitOnChar_first_two (s : String) (c : Char)
    (h : strContainsChar s c = true) :
    ∃ tail, strSplitOnChar s c =
      takeUntilChar s c :: secondSegment s c :: tail := by
  unfold strSplitOnChar
  rw [splitOnCharAux_spec c s.data [],
    if_pos (show s.data.contains c = true from h)]
  by_cases hrest : (afterFirstChar s c).contains c = true
  · rw [show ((s.data.dropWhile (fun x => x != c)).drop 1) = afterFirstChar s c
      from rfl]
    rw [splitOnCharAux_spec c _ [], if_pos hrest]
    refine ⟨(splitOnCharAux c (((afterFirstChar s c).dropWhile
        (fun x => x != c)).drop 1) []).map String.mk, ?_⟩
    simp [takeUntilChar, secondSegment]
  · have hrest' : (afterFirstChar s c).contains c = false := by simpa using hrest
    rw [show ((s.data.dropWhile (fun x => x != c)).drop 1) = afterFirstChar s c
      from rfl]
    rw [splitOnCharAux_spec c _ [], if_neg (by simpa using hrest')]
    refine ⟨[], ?_⟩
    simp [takeUntilChar, secondSegment,
      takeWhile_eq_self_of_not_contains c _ hrest']

/-- Counterexample to C1 as stated: settings declared `ARCHS` then
`PRODUCT_NAME`, with a free-form re-declaration of `ARCHS`.  The
surviving `ARCHS` entry sits at the position of its *last* declaration
(after `PRODUCT_NAME`), not at the position of its first declaration. -/
theorem addAdditionalArgs_position_counterexample :
    buildCommand (addAdditionalArgs
        (addBuildSettings (addBuildSettings XcodeBuilder.empty "ARCHS" "arm64")
          "PRODUCT_NAME" "App") ["ARCHS=x86_64"]) =
      ["xcodebuild", "PRODUCT_NAME=App", "ARCHS=x86_64"] ∧
      ["xcodebuild", "PRODUCT_NAME=App", "ARCHS=x86_64"] ≠
        ["xcodebuild", "ARCHS=x86_64", "PRODUCT_NAME=App"] :=
  ⟨rfl, by decide⟩

/-- C1 (amended): merging a non-empty free-form token list deduplicates
each class: a key declared more than once survives exactly once, valued
from its last declaration, and — for build settings and parameters — the
surviving entry sits where its *last* declaration was (`keepLast` removes
every non-final occurrence of a key); duplicate action verbs keep the
position of their first declaration (reverse / keep-last / reverse). -/
theorem addAdditionalArgs_last_write_wins (b : XcodeBuilder)
    (args : List String) (k : String) (hargs : args ≠ []) :
    (addAdditionalArgs b args).buildSettings =
        keepLast (fun s => s.key) (scanArgs b args).buildSettings ∧
      (addAdditionalArgs b args).parameters =
        keepLast (fun p => p.arg) (scanArgs b args).parameters ∧
      (addAdditionalArgs b args).actions =
        (keepLast (fun a => a) (scanArgs b args).actions.reverse).reverse ∧
      (addAdditionalArgs b args).buildSettings.countP (fun s => s.key == k) =
        (if (scanArgs b args).buildSettings.any (fun s => s.key == k) then 1
         else 0) ∧
      (addAdditionalArgs b args).buildSettings.find? (fun s => s.key == k) =
        (scanArgs b args).buildSettings.reverse.find? (fun s => s.key == k) ∧
      (addAdditionalArgs b args).parameters.countP (fun p => p.arg == k) =
        (if (scanArgs b args).parameters.any (fun p => p.arg == k) then 1
         else 0) ∧
      (addAdditionalArgs b args).parameters.find? (fun p => p.arg == k) =
        (scanArgs b args).parameters.reverse.find? (fun p => p.arg == k) := by
  unfold addAdditionalArgs
  rw [if_neg hargs]
  refine ⟨dedupLastBy_eq_keepLast _ _, dedupLastBy_eq_keepLast _ _,
    dedupFirstBy_eq_reverse_keepLast _ _, ?_, ?_, ?_, ?_⟩
  · show (dedupLastBy (fun s => s.key) (scanArgs b args).buildSettings).countP _ = _
    rw [dedupLastBy_eq_keepLast, countP_keepLast]
  · show (dedupLastBy (fun s => s.key) (scanArgs b args).buildSettings).find? _ = _
    rw [dedupLastBy_eq_keepLast, find?_keepLast]
  · show (dedupLastBy (fun p => p.arg) (scanArgs b args).parameters).countP _ = _
    rw [dedupLastBy_eq_keepLast, countP_keepLast]
  · show (dedupLastBy (fun p => p.arg) (scanArgs b args).parameters).find? _ = _
    rw [dedupLastBy_eq_keepLast, find?_keepLast]

/-- Witness for C1 (amended) at the counterexample input: the key "ARCHS"
declared twice survives once, valued "x86_64", placed at its last
declaration. -/
theorem addAdditionalArgs_last_write_wins_witness :
    ((["ARCHS=x86_64"] : List String) ≠ []) ∧
      ((addAdditionalArgs
          (addBuildSettings (addBuildSettings XcodeBuilder.empty "ARCHS" "arm64")
            "PRODUCT_NAME" "App") ["ARCHS=x86_64"]).buildSettings =
        keepLast (fun s => s.key)
          (scanArgs
            (addBuildSettings (addBuildSettings XcodeBuilder.empty "ARCHS" "arm64")
              "PRODUCT_NAME" "App") ["ARCHS=x86_64"]).buildSettings) ∧
      ((addAdditionalArgs
          (addBuildSettings (addBuildSettings XcodeBuilder.empty "ARCHS" "arm64")
            "PRODUCT_NAME" "App") ["ARCHS=x86_64"]).buildSettings.countP
          (fun s => s.key == "ARCHS") =
        (if (scanArgs
            (addBuildSettings (addBuildSettings XcodeBuilder.empty "ARCHS" "arm64")
              "PRODUCT_NAME" "App") ["ARCHS=x86_64"]).buildSettings.any
            (fun s => s.key == "ARCHS") then 1 else 0)) :=
  ⟨by decide,
    (addAdditionalArgs_last_write_wins
      (addBuildSettings (addBuildSettings XcodeBuilder.empty "ARCHS" "arm64")
        "PRODUCT_NAME" "App") ["ARCHS=x86_64"] "ARCHS" (by decide)).1,
    (addAdditionalArgs_last_write_wins
      (addBuildSettings (addBuildSettings XcodeBuilder.empty "ARCHS" "arm64")
        "PRODUCT_NAME" "App") ["ARCHS=x86_64"] "ARCHS" (by decide)).2.2.2.1⟩

/-- Counterexample to C5 as stated: with an *empty* additional-args list
the dedup passes are skipped (`addAdditionalArgs` returns early), so the
`ONLY_ACTIVE_ARCH` build setting declared by both the arch override and
the debug flag occurs twice in the command representation and both
renderings reach the argument vector. -/
theorem buildApp_duplicate_key_counterexample :
    (buildAppBuilder (some "arm64") true "MyApp" "Debug" "/App.xcworkspace"
        "platform=macOS" "/bundle" none true false true false []).buildSettings.countP
        (fun s => s.key == "ONLY_ACTIVE_ARCH") = 2 ∧
      "ONLY_ACTIVE_ARCH=NO" ∈ buildAppCommand (some "arm64") true "MyApp" "Debug"
        "/App.xcworkspace" "platform=macOS" "/bundle" none true false true false [] ∧
      "ONLY_ACTIVE_ARCH=YES" ∈ buildAppCommand (some "arm64") true "MyApp" "Debug"
        "/App.xcworkspace" "platform=macOS" "/bundle" none true false true false [] :=
  ⟨rfl, by decide, by decide⟩

/-- C5 (amended): whenever the additional-args list is non-empty (so the
dedup passes actually run), every build-setting key, parameter flag and
action verb occurs at most once in the assembled command
representation. -/
theorem addAdditionalArgs_keys_unique (b : XcodeBuilder) (args : List String)
    (k : String) (hargs : args ≠ []) :
    (addAdditionalArgs b args).buildSettings.countP (fun s => s.key == k) ≤ 1 ∧
      (addAdditionalArgs b args).parameters.countP (fun p => p.arg == k) ≤ 1 ∧
      (addAdditionalArgs b args).actions.countP (fun a => a == k) ≤ 1 := by
  unfold addAdditionalArgs
  rw [if_neg hargs]
  refine ⟨?_, ?_, ?_⟩
  · show (dedupLastBy (fun s => s.key) (scanArgs b args).buildSettings).countP _ ≤ 1
    rw [dedupLastBy_eq_keepLast, countP_keepLast]
    split <;> omega
  · show (dedupLastBy (fun p => p.arg) (scanArgs b args).parameters).countP _ ≤ 1
    rw [dedupLastBy_eq_keepLast, countP_keepLast]
    split <;> omega
  · show (dedupFirstBy (fun a => a) (scanArgs b args).actions).countP _ ≤ 1
    rw [dedupFirstBy_eq_reverse_keepLast, List.countP_reverse, countP_keepLast]
    split <;> omega

/-- Witness for C5 (amended) at Scenario D of the spec: tokens
`["-quiet", "ARCHS=arm64", "clean"]` yield each key at most once. -/
theorem addAdditionalArgs_keys_unique_witness :
    ((["-quiet", "ARCHS=arm64", "clean"] : List String) ≠ []) ∧
      ((addAdditionalArgs XcodeBuilder.empty
          ["-quiet", "ARCHS=arm64", "clean"]).buildSettings.countP
          (fun s => s.key == "ARCHS") ≤ 1) ∧
      ((addAdditionalArgs XcodeBuilder.empty
          ["-quiet", "ARCHS=arm64", "clean"]).parameters.countP
          (fun p => p.arg == "-quiet") ≤ 1) :=
  ⟨by decide,
    (addAdditionalArgs_keys_unique XcodeBuilder.empty
      ["-quiet", "ARCHS=arm64", "clean"] "ARCHS" (by decide)).1,
    (addAdditionalArgs_keys_unique XcodeBuilder.empty
      ["-quiet", "ARCHS=arm64", "clean"] "-quiet" (by decide)).2.1⟩

/-- Counterexample to C8 as stated: the token "KEY=a=b" is classified as
the build setting `KEY=a` — JavaScript `split("=")` splits on *every*
`=` and the destructuring keeps only the second piece, so the value is
"a", not the claimed "a=b". -/
theorem eq_token_value_counterexample :
    (addAdditionalArgs XcodeBuilder.empty ["KEY=a=b"]).buildSettings =
        [⟨"KEY", "a"⟩] ∧
      buildCommand (addAdditionalArgs XcodeBuilder.empty ["KEY=a=b"]) =
        ["xcodebuild", "KEY=a"] ∧
      ("a" : String) ≠ "a=b" :=
  ⟨rfl, rfl, by decide⟩

/-- C8 (amended): a token examined by the scanner that contains `=` and
does not start with `-` (and is therefore not consumed as the value of a
preceding flag) is classified as a build setting whose key is the text
before the first `=` and whose value is the text between the first and
the second `=` — which is the entire remainder after the first `=`
exactly when the token contains no second `=`. -/
theorem eq_token_classified_as_build_setting (b : XcodeBuilder) (t : String)
    (h1 : strStartsWith t "-" = false) (h2 : strContainsChar t '=' = true) :
    scanOne b t = ⟨b.buildSettings ++ [⟨takeUntilChar t '=', secondSegment t '='⟩],
        b.parameters, b.actions⟩ ∧
      (∀ rest, scanArgs b (t :: rest) = scanArgs (scanOne b t) rest) ∧
      ((afterFirstChar t '=').contains '=' = false →
        secondSegment t '=' = String.mk (afterFirstChar t '=')) := by
  refine ⟨?_, ?_, ?_⟩
  · unfold scanOne
    rw [if_neg (ne_true_of_eq_false h1), if_pos h2]
    obtain ⟨tail, htail⟩ := strSplitOnChar_first_two t '=' h2
    rw [htail]
  · intro rest
    cases rest with
    | nil => rfl
    | cons nx nrest =>
      have hcond : ((t != "") && (nx != "") && strStartsWith t "-" &&
          !(strStartsWith nx "-")) = false := by
        rw [h1]
        simp
      show scanArgs b (t :: nx :: nrest) = scanArgs (scanOne b t) (nx :: nrest)
      simp only [scanArgs]
      rw [if_neg (ne_true_of_eq_false hcond)]
  · intro hnc
    unfold secondSegment
    rw [takeWhile_eq_self_of_not_contains _ _ hnc]

/-- Witness for C8 (amended) at the token "KEY=a=b": key "KEY", value
"a" (the segment between the first and the second `=`). -/
theorem eq_token_classified_as_build_setting_witness :
    strStartsWith "KEY=a=b" "-" = false ∧
      strContainsChar "KEY=a=b" '=' = true ∧
      scanOne XcodeBuilder.empty "KEY=a=b" =
        ⟨[⟨takeUntilChar "KEY=a=b" '=', secondSegment "KEY=a=b" '='⟩], [], []⟩ :=
  ⟨by decide, by decide,
    (eq_token_classified_as_build_setting XcodeBuilder.empty "KEY=a=b"
      (by decide) (by decide)).1⟩

/-- Failures surfaced by the CLI resolution layer (`ExtensionError`
messages in src/cli/index.ts edging into the pickers). -/
inductive CliError where
  | noSchemes
  | noWorkspaces
  | noDestinations
  | destinationIdNotFound
  | destinationNameNotFound
deriving DecidableEq, Repr

/-- Lift a picker failure into the CLI error type. -/
def CliError.ofPick : PickError → CliError
  | .noSchemes => .noSchemes
  | .noWorkspaces => .noWorkspaces
  | .noDestinations => .noDestinations

/-- JavaScript truthiness on an optional string: `undefined` and the
empty string are falsy. -/
def truthyStr : Option String → Option String
  | some "" => none
  | o => o

/-- `path.isAbsolute` on POSIX. -/
def isAbsolutePath (p : String) : Bool :=
  strStartsWith p "/"

/-- `path.join(a, b)` (without the normalization step, which none of the
claims depend on). -/
def joinPath (a b : String) : String :=
  a ++ "/" ++ b

/-- `options.scheme ?? (await pickSchemeSmart(...))` in `run()`
(src/cli/index.ts): an explicit `--scheme` flag short-circuits the smart
picker. -/
def resolveScheme (explicit : Option String) (ctx : CliCtx) (schemes : List String)
    (picker : List String → String) : (Except CliError String) × CliCtx :=
  match explicit with
  | some s => (.ok s, ctx)
  | none =>
    match pickSchemeSmart ctx schemes picker with
    | (.ok s, c) => (.ok s, c)
    | (.error e, c) => (.error (CliError.ofPick e), c)

/-- `options.configuration ?? getCliConfig("build.configuration") ??
pickConfigurationSmart(...)` in `run()`. -/
def resolveConfiguration (explicit : Option String) (configValue : Option String)
    (ctx : CliCtx) (configurations : List String)
    (picker : List String → String) : (Except CliError String) × CliCtx :=
  match explicit with
  | some s => (.ok s, ctx)
  | none =>
    match configValue with
    | some s => (.ok s, ctx)
    | none =>
      match pickConfigurationSmart ctx configurations picker with
      | (.ok s, c) => (.ok s, c)
      | (.error e, c) => (.error (CliError.ofPick e), c)

/-- `resolveXcworkspace` (src/cli/index.ts): an explicit `--xcworkspace`
flag or the `build.xcodeWorkspacePath` configuration short-circuits the
smart picker; a relative path is joined onto the workspace root. -/
def resolveXcworkspace (explicit : Option String) (configPath : Option String)
    (workspacePath : String) (ctx : CliCtx) (paths : List String)
    (picker : List String → String) : (Except CliError String) × CliCtx :=
  let rawPath := match explicit with
    | some s => some s
    | none => configPath
  match truthyStr rawPath with
  | some p =>
    (.ok (if isAbsolutePath p then p else joinPath workspacePath p), ctx)
  | none =>
    match pickXcodeWorkspacePathSmart ctx paths picker with
    | (.ok s, c) => (.ok s, c)
    | (.error e, c) => (.error (CliError.ofPick e), c)

/-- A substring test on character lists (`String.prototype.includes`). -/
def listIncludes (needle : List Char) : List Char → Bool
  | [] => needle.isEmpty
  | h :: t => needle.isPrefixOf (h :: t) || listIncludes needle t

/-- `s.includes(sub)`. -/
def strIncludes (s sub : String) : Bool :=
  listIncludes sub.data s.data

/-- `matchDestinationId` (src/cli/index.ts). -/
def matchDestinationId (destination : Dest) (id : String) : Bool :=
  let normalized := strToLower (strTrim id)
  match destination.udid with
  | some u => strToLower u == normalized || strToLower destination.id == normalized
  | none => strToLower destination.id == normalized

/-- `matchDestinationName` (src/cli/index.ts).  Every destination variant
in the source carries a `name` field, so the `"name" in destination`
branch always takes it. -/
def matchDestinationName (destination : Dest) (name : String) : Bool :=
  let normalized := strToLower (strTrim name)
  if normalized == "" then false
  else
    strIncludes (strToLower destination.label) normalized ||
      strIncludes (strToLower destination.name) normalized ||
      strIncludes (strToLower destination.id) normalized

/-- `resolveDestination` (src/cli/index.ts).  `destinations` is the
enumeration from `listDestinations`; `supported`/`unsupported` is its
partition by the external `splitSupportedDestinatinos` collaborator,
which the smart picker consumes. -/
def resolveDestination (destinationId destinationName : Option String)
    (ctx : CliCtx) (destinations supported unsupported : List Dest)
    (picker : List Dest → Dest) : (Except CliError Dest) × CliCtx :=
  let tid := truthyStr destinationId
  let tname := truthyStr destinationName
  if tid.isNone && tname.isNone then
    match pickDestinationSmart ctx supported unsupported picker with
    | (.ok d, c) => (.ok d, c)
    | (.error e, c) => (.error (CliError.ofPick e), c)
  else
    match tid with
    | some id =>
      match destinations.find? (fun item => matchDestinationId item id) with
      | some d => (.ok d, ctx)
      | none => (.error .destinationIdNotFound, ctx)
    | none =>
      let nm := match tname with
        | some nm => nm
        | none => ""
      match destinations.filter (fun item => matchDestinationName item nm) with
      | [] => (.error .destinationNameNotFound, ctx)
      | [d] => (.ok d, ctx)
      | _ =>
        match pickDestinationSmart ctx supported unsupported picker with
        | (.ok d, c) => (.ok d, c)
        | (.error e, c) => (.error (CliError.ofPick e), c)

lemma truthyStr_some_ne (p : String) (hp : p ≠ "") : truthyStr (some p) = some p := by
  unfold truthyStr
  split
  · rename_i heq
    exact absurd (by injection heq) hp
  · rfl

/-- Counterexample to C9 as stated: with an explicit `--destination
iphone` flag matching two destinations by name, resolution falls back to
the smart destination picker, which writes the interactive choice into
selection memory (dirty flag set). -/
theorem resolveDestination_explicit_name_ambiguous_writes_memory :
    (resolveDestination none (some "iphone") ⟨[], false⟩
        [⟨"d1", some "U1", "iPhone 15", "iPhone 15"⟩,
          ⟨"d2", some "U2", "iPhone 16", "iPhone 16"⟩]
        [⟨"d1", some "U1", "iPhone 15", "iPhone 15"⟩,
          ⟨"d2", some "U2", "iPhone 16", "iPhone 16"⟩]
        []
        (fun l => l.headD defaultDest)).2.stateDirty = true ∧
      (⟨[], false⟩ : CliCtx).stateDirty = false :=
  ⟨rfl, rfl⟩

/-- C9 (amended): an explicitly supplied `--scheme`, `--configuration`
(flag or external configuration), `--xcworkspace` (flag or
configuration) or `--destination-id` never writes selection memory (the
context is returned unchanged), and an explicit `--destination` name
writes nothing when it matches at most one destination; only the
ambiguous-name fallback (two or more matches) re-enters the smart picker
and may write. -/
theorem explicit_values_do_not_write_memory :
    (∀ (s : String) (ctx : CliCtx) (schemes : List String)
        (picker : List String → String),
        resolveScheme (some s) ctx schemes picker = (.ok s, ctx)) ∧
      (∀ (s : String) (cfg : Option String) (ctx : CliCtx)
        (configurations : List String) (picker : List String → String),
        resolveConfiguration (some s) cfg ctx configurations picker = (.ok s, ctx)) ∧
      (∀ (s : String) (ctx : CliCtx) (configurations : List String)
        (picker : List String → String),
        resolveConfiguration none (some s) ctx configurations picker = (.ok s, ctx)) ∧
      (∀ (p : String) (cfgPath : Option String) (w : String) (ctx : CliCtx)
        (paths : List String) (picker : List String → String), p ≠ "" →
        resolveXcworkspace (some p) cfgPath w ctx paths picker =
          (.ok (if isAbsolutePath p then p else joinPath w p), ctx)) ∧
      (∀ (id : String) (nmopt : Option String) (ctx : CliCtx)
        (destinations supported unsupported : List Dest)
        (picker : List Dest → Dest), id ≠ "" →
        (resolveDestination (some id) nmopt ctx destinations supported unsupported
          picker).2 = ctx) ∧
      (∀ (nm : String) (ctx : CliCtx)
        (destinations supported unsupported : List Dest)
        (picker : List Dest → Dest), nm ≠ "" →
        (destinations.filter (fun item => matchDestinationName item nm)).length ≤ 1 →
        (resolveDestination none (some nm) ctx destinations supported unsupported
          picker).2 = ctx) := by
  refine ⟨fun _ _ _ _ => rfl, fun _ _ _ _ _ => rfl, fun _ _ _ _ => rfl, ?_, ?_, ?_⟩
  · intro p cfgPath w ctx paths picker hp
    simp [resolveXcworkspace, truthyStr_some_ne p hp]
  · intro id nmopt ctx destinations supported unsupported picker hid
    cases hf : destinations.find? (fun item => matchDestinationId item id) with
    | some d => simp [resolveDestination, truthyStr_some_ne id hid, hf]
    | none => simp [resolveDestination, truthyStr_some_ne id hid, hf]
  · intro nm ctx destinations supported unsupported picker hnm hlen
    cases hf : destinations.filter (fun item => matchDestinationName item nm) with
    | nil =>
      simp [resolveDestination, truthyStr_some_ne nm hnm, hf,
        show truthyStr none = none from rfl]
    | cons d rest =>
      cases rest with
      | nil =>
        simp [resolveDestination, truthyStr_some_ne nm hnm, hf,
          show truthyStr none = none from rfl]
      | cons d2 rest2 =>
        rw [hf] at hlen
        simp at hlen

/-- Witness for C9 (amended): an explicit `--destination-id` resolves
without touching the context, and an explicit `--scheme` short-circuits
the picker. -/
theorem explicit_values_do_not_write_memory_witness :
    (("ABC" : String) ≠ "") ∧
      (resolveDestination (some "ABC") none ⟨[], false⟩
          [⟨"abc", some "ABC", "Dev", "Dev"⟩] [⟨"abc", some "ABC", "Dev", "Dev"⟩] []
          (fun l => l.headD defaultDest)).2 = ⟨[], false⟩ ∧
      resolveScheme (some "MyApp") ⟨[], false⟩ [] (fun _ => "x") =
        (.ok "MyApp", ⟨[], false⟩) :=
  ⟨by decide,
    explicit_values_do_not_write_memory.2.2.2.2.1 "ABC" none ⟨[], false⟩
      [⟨"abc", some "ABC", "Dev", "Dev"⟩] [⟨"abc", some "ABC", "Dev", "Dev"⟩] []
      (fun l => l.headD defaultDest) (by decide),
    explicit_values_do_not_write_memory.1 "MyApp" ⟨[], false⟩ [] (fun _ => "x")⟩
